import Mathlib

/-!
Verification of the `tick` checklist runner's core engine
(`tick/core/engine.py`, `tick/core/state.py`, `tick/core/utils.py`,
`tick/core/models/checklist.py`, `tick/core/models/session.py`).

The Python source is shallowly embedded: every pure function becomes a Lean
function over explicit data, fallible code returns `Except String`, and the
effectful inputs of the engine (wall-clock timestamps, generated session ids)
become explicit parameters.  Python `Mapping[str, object]` values are embedded
as association lists with unique keys (the faithful domain of Python dicts).
-/

section PythonValues

/-- A Python runtime value as it can appear in the engine's variable mappings
and condition evaluation (`str`, `bool`, `int`, `None`, `list`/`tuple`). -/
inductive PyVal where
  | str (s : String) : PyVal
  | bool (b : Bool) : PyVal
  | int (n : Int) : PyVal
  | none : PyVal
  | list (xs : List PyVal) : PyVal

/-- Variable mapping handed to the engine (`Mapping[str, object]`),
embedded as an association list with unique keys. -/
abbrev VarMap := List (String × PyVal)

/-- First binding of a key, i.e. Python dict lookup on the faithful
unique-key domain. -/
def lookupVar (vars : VarMap) (id : String) : Option PyVal :=
  vars.lookup id

/-- Python truthiness (`bool(v)`) for the embedded value domain. -/
def truthy : PyVal → Bool
  | .str s => s ≠ ""
  | .bool b => b
  | .int n => n ≠ 0
  | .none => false
  | .list xs => !xs.isEmpty

/-- Numeric view of a value: Python treats `bool` as a subtype of `int`
(`True == 1`), so both coerce to an integer for `==` comparisons. -/
def pyNum : PyVal → Option Int
  | .bool b => some (if b then 1 else 0)
  | .int n => some n
  | _ => Option.none

mutual
/-- Python `==` on the embedded value domain: strings compare to strings,
numbers (including booleans) compare numerically, `None` only to itself,
lists pointwise; values of different kinds are unequal. -/
def pyEq : PyVal → PyVal → Bool
  | .str a, .str b => a = b
  | .none, .none => true
  | .list a, .list b => pyEqList a b
  | a, b =>
    match pyNum a, pyNum b with
    | some x, some y => x = y
    | _, _ => false

/-- Pointwise Python `==` on lists. -/
def pyEqList : List PyVal → List PyVal → Bool
  | [], [] => true
  | a :: as, b :: bs => pyEq a b && pyEqList as bs
  | _, _ => false
end

/-- Python `str(v)` for the embedded value domain, used by
`ExecutionEngine.start` to normalize session variables. -/
def pyStr : PyVal → String
  | .str s => s
  | .bool b => if b then "True" else "False"
  | .int n => toString n
  | .none => "None"
  | .list xs => "[" ++ String.intercalate ", " (xs.map pyReprShallow) ++ "]"
where
  /-- One level of Python `repr` for list elements (enough for the embedded
  domain; nested lists render their elements shallowly). -/
  pyReprShallow : PyVal → String
  | .str s => "'" ++ s ++ "'"
  | .bool b => if b then "True" else "False"
  | .int n => toString n
  | .none => "None"
  | .list _ => "[...]"

end PythonValues

section ConditionAst

/-- Comparison operator nodes that can occur in a parsed Python `ast.Compare`.
The engine's whitelist admits only `==`, `!=`, `in`, `not in`; `<` and `>`
stand for the (rejected) remaining comparison operators. -/
inductive CmpOpK where
  | eqK : CmpOpK
  | neK : CmpOpK
  | inK : CmpOpK
  | notInK : CmpOpK
  | ltK : CmpOpK
  | gtK : CmpOpK

/-- Boolean operator nodes of `ast.BoolOp` (`and` / `or`). -/
inductive BoolOpK where
  | andK : BoolOpK
  | orK : BoolOpK

/-- Unary operator nodes of `ast.UnaryOp`: `not` is whitelisted, `-` (`USub`)
stands for the rejected remaining unary operators.  -/
inductive UnOpK where
  | notK : UnOpK
  | uSubK : UnOpK

/-- A parsed Python expression tree as produced by `ast.parse(_, mode="eval")`,
restricted to the node kinds relevant to condition strings.  Constructors
`binOp`, `call` and `attribute` embed the classes of syntax (arithmetic,
function calls, attribute access) that lie outside the evaluator's whitelist. -/
inductive PyExpr where
  | boolOp (op : BoolOpK) (values : List PyExpr) : PyExpr
  | unaryOp (op : UnOpK) (operand : PyExpr) : PyExpr
  | compare (left : PyExpr) (pairs : List (CmpOpK × PyExpr)) : PyExpr
  | name (id : String) : PyExpr
  | const (v : PyVal) : PyExpr
  | listLit (elts : List PyExpr) : PyExpr
  | tupleLit (elts : List PyExpr) : PyExpr
  | binOp (left : PyExpr) (right : PyExpr) : PyExpr
  | call (func : PyExpr) (args : List PyExpr) : PyExpr
  | attribute (obj : PyExpr) (attr : String) : PyExpr

mutual
/-- The `ast.walk` membership test of `_safe_eval_condition`'s `allowed_nodes`
tuple: `true` iff every node of the tree (operator nodes included) is an
instance of an allowed node class. -/
def walkAllowed : PyExpr → Bool
  | .boolOp _ values => walkAllowedList values
  | .unaryOp op operand =>
    (match op with | .notK => true | .uSubK => false) && walkAllowed operand
  | .compare left pairs => walkAllowed left && walkAllowedPairs pairs
  | .name _ => true
  | .const _ => true
  | .listLit elts => walkAllowedList elts
  | .tupleLit elts => walkAllowedList elts
  | .binOp _ _ => false
  | .call _ _ => false
  | .attribute _ _ => false

/-- The `walkAllowed` over the children lists of `BoolOp`/`List`/`Tuple` nodes. -/
def walkAllowedList : List PyExpr → Bool
  | [] => true
  | e :: es => walkAllowed e && walkAllowedList es

/-- The `walkAllowed` over the `(op, comparator)` pairs of a `Compare` node:
the operator must be one of `Eq`, `NotEq`, `In`, `NotIn`. -/
def walkAllowedPairs : List (CmpOpK × PyExpr) → Bool
  | [] => true
  | (op, e) :: rest =>
    (match op with
     | .eqK => true | .neK => true | .inK => true | .notInK => true
     | .ltK => false | .gtK => false) && walkAllowed e && walkAllowedPairs rest
end

mutual
/-- The inner `_eval` of `_safe_eval_condition` (engine.py lines 49-89):
interprets a parsed expression against the variable mapping, raising
(`Except.error`) on missing/`None` variables and on unsupported nodes. -/
def pyEval (vars : VarMap) : PyExpr → Except String PyVal
  | .boolOp op values => do
    let vs ← pyEvalList vars values
    match op with
    | .andK => return .bool (vs.all truthy)
    | .orK => return .bool (vs.any truthy)
  | .unaryOp .notK operand => do
    let v ← pyEval vars operand
    return .bool (!truthy v)
  | .unaryOp .uSubK _ => .error "Unsupported expression"
  | .compare left pairs => do
    let l ← pyEval vars left
    pyEvalCompare vars l pairs
  | .name id =>
    match lookupVar vars id with
    | Option.none => .error "Missing variable"
    | some .none => .error "Missing variable"
    | some v => .ok v
  | .const v => .ok v
  | .listLit elts => do
    let vs ← pyEvalList vars elts
    return .list vs
  | .tupleLit elts => do
    let vs ← pyEvalList vars elts
    return .list vs
  | .binOp _ _ => .error "Unsupported expression"
  | .call _ _ => .error "Unsupported expression"
  | .attribute _ _ => .error "Unsupported expression"

/-- Elementwise `_eval` over child expression lists. -/
def pyEvalList (vars : VarMap) : List PyExpr → Except String (List PyVal)
  | [] => .ok []
  | e :: es => do
    let v ← pyEval vars e
    let vs ← pyEvalList vars es
    return v :: vs

/-- The chained-comparison loop of `_eval`'s `Compare` branch: walks the
`(op, comparator)` pairs left to right, returning `False` at the first failing
adjacent pair (later comparators are then not evaluated), rebinding `left` to
the previous comparator otherwise; returns `True` if every pair passes.
Operators outside `Eq`/`NotEq`/`In`/`NotIn` perform no check (the source loop
has no branch for them; the whitelist walk rejects them beforehand). -/
def pyEvalCompare (vars : VarMap) (left : PyVal) :
    List (CmpOpK × PyExpr) → Except String PyVal
  | [] => .ok (.bool true)
  | (op, comparator) :: rest => do
    let right ← pyEval vars comparator
    match op with
    | .eqK =>
      if !pyEq left right then .ok (.bool false)
      else pyEvalCompare vars right rest
    | .neK =>
      if pyEq left right then .ok (.bool false)
      else pyEvalCompare vars right rest
    | .inK =>
      match right with
      | .list xs =>
        if !xs.any (fun x => pyEq left x) then .ok (.bool false)
        else pyEvalCompare vars right rest
      | _ => .ok (.bool false)
    | .notInK =>
      match right with
      | .list xs =>
        if xs.any (fun x => pyEq left x) then .ok (.bool false)
        else pyEvalCompare vars right rest
      | _ => .ok (.bool false)
    | .ltK => pyEvalCompare vars right rest
    | .gtK => pyEvalCompare vars right rest
end

/-- A condition attached to a section or item: the raw string stored in the
checklist document together with its parse `ast.parse(src, mode="eval")`.
(The Python parser itself is outside the embedding; a `Cond` packages its
output alongside the source text, which the digest serializes.) -/
structure Cond where
  src : String
  ast : PyExpr

/-- The `_safe_eval_condition` (engine.py lines 26-97) for a parseable condition:
empty condition strings are vacuously true; otherwise the whitelist walk
rejects any tree with a disallowed node, and `_eval`'s result is coerced with
`bool(...)`. -/
def safe_eval_condition (cond : Cond) (vars : VarMap) : Except String Bool :=
  if cond.src = "" then .ok true
  else if !walkAllowed cond.ast then
    .error ("Unsupported expression in condition: " ++ cond.src)
  else do
    let v ← pyEval vars cond.ast
    return truthy v

end ConditionAst

section ConditionChecks

example :
    safe_eval_condition ⟨"environment == 'prod'",
      .compare (.name "environment") [(.eqK, .const (.str "prod"))]⟩
      [("environment", .str "prod")] = .ok true := rfl

example :
    safe_eval_condition ⟨"not environment", .unaryOp .notK (.name "environment")⟩
      [("environment", .str "")] = .ok true := rfl

example :
    safe_eval_condition ⟨"1 + 1", .binOp (.const (.int 1)) (.const (.int 1))⟩
      [] = .error "Unsupported expression in condition: 1 + 1" := rfl

example :
    safe_eval_condition ⟨"missing == 'x'",
      .compare (.name "missing") [(.eqK, .const (.str "x"))]⟩
      [("environment", .str "prod")] = .error "Missing variable" := rfl

end ConditionChecks

section SortingPrimitives

/-- Code-point comparison on `Char` (Python compares strings by code point). -/
def charNat (c : Char) : Nat := c.toNat

/-- Lexicographic `≤` on char lists by code point, i.e. Python string `<=`. -/
def listLeChar : List Char → List Char → Bool
  | [], _ => true
  | _ :: _, [] => false
  | a :: as, b :: bs =>
    if charNat a < charNat b then true
    else if charNat b < charNat a then false
    else listLeChar as bs

/-- Python string `<=` (lexicographic by code point). -/
def strLe (a b : String) : Bool := listLeChar a.data b.data

/-- Python `<=` on `(str, str)` tuples (lexicographic on components). -/
def pairLeSS (a b : String × String) : Bool :=
  if a.1 = b.1 then strLe a.2 b.2 else strLe a.1 b.1

/-- Ordered insertion used by `sortLe`. -/
def insertLe {α : Type} (le : α → α → Bool) (a : α) : List α → List α
  | [] => [a]
  | b :: bs => if le a b then a :: b :: bs else b :: insertLe le a bs

/-- Insertion sort; on lists of distinct elements it computes the same result
as Python's `sorted` for any total order `le`. -/
def sortLe {α : Type} (le : α → α → Bool) : List α → List α
  | [] => []
  | x :: xs => insertLe le x (sortLe le xs)

end SortingPrimitives

section DataModel

/-- The `Severity` (`tick/core/models/enums.py`). -/
inductive Severity where
  | low : Severity
  | medium : Severity
  | high : Severity
  | critical : Severity
  deriving DecidableEq

/-- The `str` value of a `Severity` member. -/
def Severity.value : Severity → String
  | .low => "low"
  | .medium => "medium"
  | .high => "high"
  | .critical => "critical"

/-- The `ItemResult` (`tick/core/models/enums.py`). -/
inductive ItemResult where
  | pass : ItemResult
  | fail : ItemResult
  | skip : ItemResult
  | na : ItemResult
  deriving DecidableEq

/-- The `str` value of an `ItemResult` member. -/
def ItemResult.value : ItemResult → String
  | .pass => "pass"
  | .fail => "fail"
  | .skip => "skip"
  | .na => "na"

/-- The `SessionStatus` (`tick/core/models/enums.py`). -/
inductive SessionStatus where
  | in_progress : SessionStatus
  | completed : SessionStatus
  deriving DecidableEq

/-- A matrix entry / matrix context: a Python `dict[str, str]` embedded as an
association list with unique keys, in dict insertion order. -/
abbrev MatrixCtx := List (String × String)

/-- The `ChecklistVariable` (`tick/core/models/checklist.py`). -/
structure ChecklistVariable where
  prompt : String
  required : Bool
  options : Option (List String)
  default : Option String
  deriving DecidableEq

/-- The `ChecklistMetadata` (`tick/core/models/checklist.py`). -/
structure ChecklistMetadata where
  author : Option String
  tags : List String
  estimated_time : Option String
  deriving DecidableEq

/-- The `ChecklistItem` (`tick/core/models/checklist.py`). -/
structure ChecklistItem where
  id : String
  check : String
  severity : Severity
  guidance : Option String
  evidence_required : Bool
  condition : Option Cond
  matrix : Option (List MatrixCtx)

/-- The `ChecklistSection` (`tick/core/models/checklist.py`). -/
structure ChecklistSection where
  name : String
  condition : Option Cond
  items : List ChecklistItem

/-- The `Checklist` (`tick/core/models/checklist.py`).  The `_digest_cache`
private attribute is a memo of the pure digest function and is not part of
the value. -/
structure Checklist where
  name : String
  version : String
  domain : String
  metadata : ChecklistMetadata
  «variables» : List (String × ChecklistVariable)
  sections : List ChecklistSection

/-- True for ASCII letters and digits (`[a-zA-Z0-9]`). -/
def isAsciiAlnum (c : Char) : Bool :=
  (48 ≤ charNat c && charNat c ≤ 57) ||
  (65 ≤ charNat c && charNat c ≤ 90) ||
  (97 ≤ charNat c && charNat c ≤ 122)

/-- Maximal runs of alphanumeric characters, in order (the complement of the
`[^a-zA-Z0-9]+` separators of `_slugify`). `cur` is the reversed run under
construction. -/
def alnumRunsAux (cur : List Char) : List Char → List (List Char)
  | [] => if cur.isEmpty then [] else [cur.reverse]
  | c :: cs =>
    if isAsciiAlnum c then alnumRunsAux (c :: cur) cs
    else (if cur.isEmpty then [] else [cur.reverse]) ++ alnumRunsAux [] cs

/-- The `_slugify` (`tick/core/models/checklist.py` lines 13-15): lower-case,
collapse each run of non-alphanumeric characters to `-`, trim dashes, and
fall back to `"checklist"` when nothing remains. -/
def _slugify (value : String) : String :=
  let lowered := value.data.map Char.toLower
  let joined := String.intercalate "-" ((alnumRunsAux [] lowered).map String.mk)
  if joined = "" then "checklist" else joined

/-- The `Checklist.checklist_id`: `slugify(name) + "-" + version`. -/
def Checklist.checklist_id (c : Checklist) : String :=
  _slugify c.name ++ "-" ++ c.version

end DataModel

section Expansion

/-- The `ResolvedItem` (`tick/core/state.py` lines 12-16). -/
structure ResolvedItem where
  section_name : String
  item : ChecklistItem
  matrix_context : Option MatrixCtx

/-- The `matrix_key` (`tick/core/utils.py` lines 14-17): `None` normalizes to
`None`; a matrix dict normalizes to the sorted tuple of its `(key, value)`
pairs (already strings in the embedded domain), compared as Python tuples. -/
def matrix_key : Option MatrixCtx → Option (List (String × String))
  | Option.none => Option.none
  | some m => some (sortLe pairLeSS m)

/-- The guarded condition check of `_expand_items`
(`if x.condition and not _safe_eval_condition(x.condition, variables)`):
keep when the condition is absent or the empty string (falsy), otherwise
evaluate it, propagating evaluation errors. -/
def keepCond (cond : Option Cond) (vars : VarMap) : Except String Bool :=
  match cond with
  | Option.none => .ok true
  | some c => if c.src = "" then .ok true else safe_eval_condition c vars

/-- The per-item emission of `_expand_items` (engine.py lines 110-120): a
truthy (present, non-empty) `matrix` yields one `ResolvedItem` per entry in
matrix-list order; otherwise a single `ResolvedItem` with no context. -/
def itemResolved (sname : String) (item : ChecklistItem) : List ResolvedItem :=
  match item.matrix with
  | some (e :: es) => ((e :: es).map fun entry => ⟨sname, item, some entry⟩)
  | _ => [⟨sname, item, Option.none⟩]

/-- The inner loop of `_expand_items` over a kept section's items. -/
def expandSectionItems (vars : VarMap) (sname : String) :
    List ChecklistItem → Except String (List ResolvedItem)
  | [] => .ok []
  | item :: rest => do
    let keep ← keepCond item.condition vars
    let tail ← expandSectionItems vars sname rest
    return (if keep then itemResolved sname item else []) ++ tail

/-- The outer loop of `_expand_items` over sections. -/
def expandSections (vars : VarMap) :
    List ChecklistSection → Except String (List ResolvedItem)
  | [] => .ok []
  | s :: rest => do
    let keep ← keepCond s.condition vars
    let head ← if keep then expandSectionItems vars s.name s.items else pure []
    let tail ← expandSections vars rest
    return head ++ tail

/-- The `_expand_items` (engine.py lines 100-121): document-order expansion of a
checklist against a variable mapping. -/
def _expand_items (checklist : Checklist) (vars : VarMap) :
    Except String (List ResolvedItem) :=
  expandSections vars checklist.sections

end Expansion

section CanonicalJson

/-- JSON values, as produced by `Checklist.model_dump(mode="json")`.  Objects
carry their key/value pairs in the order they are rendered; the dump functions
below construct every object with its keys already in sorted order, so that
in-order rendering reproduces `json.dumps(..., sort_keys=True)`. -/
inductive Json where
  | null : Json
  | bool (b : Bool) : Json
  | str (s : String) : Json
  | arr (xs : List Json) : Json
  | obj (kvs : List (String × Json)) : Json

/-- Lower-case hex digit. -/
def hexDigitChar (n : Nat) : Char :=
  if n < 10 then Char.ofNat (48 + n) else Char.ofNat (87 + n)

/-- Four lower-case hex digits (for `\uXXXX` escapes). -/
def hex4 (n : Nat) : String :=
  String.mk [hexDigitChar (n / 4096 % 16), hexDigitChar (n / 256 % 16),
             hexDigitChar (n / 16 % 16), hexDigitChar (n % 16)]

/-- The `json.dumps` escaping of one character with `ensure_ascii=True`:
quote, backslash and the usual control shorthands, `\uXXXX` for other control
and all non-ASCII characters (surrogate pairs above the BMP). -/
def jsonEscapeChar (c : Char) : String :=
  let n := charNat c
  if n = 34 then "\\\""
  else if n = 92 then "\\\\"
  else if n = 10 then "\\n"
  else if n = 13 then "\\r"
  else if n = 9 then "\\t"
  else if n = 8 then "\\b"
  else if n = 12 then "\\f"
  else if n < 32 then "\\u" ++ hex4 n
  else if n < 128 then String.mk [c]
  else if n < 65536 then "\\u" ++ hex4 n
  else
    "\\u" ++ hex4 (55296 + (n - 65536) / 1024) ++ "\\u" ++ hex4 (56320 + (n - 65536) % 1024)

/-- The `json.dumps` string escaping (`ensure_ascii=True`); the output is pure
ASCII. -/
def jsonEscape (s : String) : String :=
  String.join (s.data.map jsonEscapeChar)

mutual
/-- Canonical rendering with separators `(",", ":")`: the output of
`json.dumps(v, sort_keys=True, separators=(",", ":"), ensure_ascii=True)`
for values whose objects are already key-sorted. -/
def renderJson : Json → String
  | .null => "null"
  | .bool true => "true"
  | .bool false => "false"
  | .str s => "\"" ++ jsonEscape s ++ "\""
  | .arr xs => "[" ++ renderArr xs ++ "]"
  | .obj kvs => "\x7b" ++ renderObj kvs ++ "\x7d"

/-- Comma-separated rendering of array elements. -/
def renderArr : List Json → String
  | [] => ""
  | [x] => renderJson x
  | x :: y :: xs => renderJson x ++ "," ++ renderArr (y :: xs)

/-- Comma-separated rendering of `"key":value` object members. -/
def renderObj : List (String × Json) → String
  | [] => ""
  | [kv] => "\"" ++ jsonEscape kv.1 ++ "\":" ++ renderJson kv.2
  | kv :: kv2 :: xs =>
    "\"" ++ jsonEscape kv.1 ++ "\":" ++ renderJson kv.2 ++ "," ++ renderObj (kv2 :: xs)
end

/-- An object whose members come from a Python dict: the pairs are put into
sorted key order (the keys of a dict are distinct, so any sort agrees with
`json.dumps(sort_keys=True)`). -/
def sortedObj (kvs : List (String × Json)) : Json :=
  .obj (sortLe (fun a b => strLe a.1 b.1) kvs)

/-- The `None`-or-string field dump. -/
def optStr : Option String → Json
  | Option.none => .null
  | some s => .str s

/-- The `ChecklistMetadata.model_dump(mode="json")` (fields in sorted key order:
author, estimated_time, tags). -/
def metadataJson (m : ChecklistMetadata) : Json :=
  .obj [("author", optStr m.author),
        ("estimated_time", optStr m.estimated_time),
        ("tags", .arr (m.tags.map .str))]

/-- The `ChecklistVariable.model_dump(mode="json")` (sorted key order: default,
options, prompt, required). -/
def variableJson (v : ChecklistVariable) : Json :=
  .obj [("default", optStr v.default),
        ("options", match v.options with
                    | Option.none => .null
                    | some xs => .arr (xs.map .str)),
        ("prompt", .str v.prompt),
        ("required", .bool v.required)]

/-- Dump of one matrix entry (`dict[str, str]`). -/
def matrixCtxJson (m : MatrixCtx) : Json :=
  sortedObj (m.map fun p => (p.1, .str p.2))

/-- Dump of an optional condition: the raw condition string or `null`. -/
def condJson : Option Cond → Json
  | Option.none => .null
  | some c => .str c.src

/-- The `ChecklistItem.model_dump(mode="json")` (sorted key order: check,
condition, evidence_required, guidance, id, matrix, severity). -/
def itemJson (i : ChecklistItem) : Json :=
  .obj [("check", .str i.check),
        ("condition", condJson i.condition),
        ("evidence_required", .bool i.evidence_required),
        ("guidance", optStr i.guidance),
        ("id", .str i.id),
        ("matrix", match i.matrix with
                   | Option.none => .null
                   | some ms => .arr (ms.map matrixCtxJson)),
        ("severity", .str i.severity.value)]

/-- The `ChecklistSection.model_dump(mode="json")` (sorted key order: condition,
items, name). -/
def sectionJson (s : ChecklistSection) : Json :=
  .obj [("condition", condJson s.condition),
        ("items", .arr (s.items.map itemJson)),
        ("name", .str s.name)]

/-- The `Checklist.model_dump(mode="json")` (sorted key order: domain, metadata,
name, sections, variables; the private `_digest_cache` attribute is not
dumped). -/
def checklistJson (c : Checklist) : Json :=
  .obj [("domain", .str c.domain),
        ("metadata", metadataJson c.metadata),
        ("name", .str c.name),
        ("sections", .arr (c.sections.map sectionJson)),
        ("variables", sortedObj (c.«variables».map fun p => (p.1, variableJson p.2))),
        ("version", .str c.version)]

end CanonicalJson

section Sha256

/-- Truncation to a 32-bit word. -/
def w32 (n : Nat) : Nat := n % 4294967296

/-- 32-bit right rotation. -/
def rotr (k x : Nat) : Nat := w32 ((x >>> k) ||| (x <<< (32 - k)))

/-- SHA-256 `Ch`. -/
def shaCh (x y z : Nat) : Nat := w32 ((x &&& y) ^^^ ((4294967295 ^^^ x) &&& z))

/-- SHA-256 `Maj`. -/
def shaMaj (x y z : Nat) : Nat := w32 ((x &&& y) ^^^ (x &&& z) ^^^ (y &&& z))

/-- SHA-256 `Σ0`. -/
def bigSigma0 (x : Nat) : Nat := rotr 2 x ^^^ rotr 13 x ^^^ rotr 22 x

/-- SHA-256 `Σ1`. -/
def bigSigma1 (x : Nat) : Nat := rotr 6 x ^^^ rotr 11 x ^^^ rotr 25 x

/-- SHA-256 `σ0`. -/
def smallSigma0 (x : Nat) : Nat := rotr 7 x ^^^ rotr 18 x ^^^ (x >>> 3)

/-- SHA-256 `σ1`. -/
def smallSigma1 (x : Nat) : Nat := rotr 17 x ^^^ rotr 19 x ^^^ (x >>> 10)

/-- SHA-256 round constants (the fractional parts of the cube roots of the
first 64 primes), in decimal. -/
def shaK : List Nat :=
  [1116352408, 1899447441, 3049323471, 3921009573, 961987163,
   1508970993, 2453635748, 2870763221, 3624381080, 310598401,
   607225278, 1426881987, 1925078388, 2162078206, 2614888103,
   3248222580, 3835390401, 4022224774, 264347078, 604807628,
   770255983, 1249150122, 1555081692, 1996064986, 2554220882,
   2821834349, 2952996808, 3210313671, 3336571891, 3584528711,
   113926993, 338241895, 666307205, 773529912, 1294757372,
   1396182291, 1695183700, 1986661051, 2177026350, 2456956037,
   2730485921, 2820302411, 3259730800, 3345764771, 3516065817,
   3600352804, 4094571909, 275423344, 430227734, 506948616,
   659060556, 883997877, 958139571, 1322822218, 1537002063,
   1747873779, 1955562222, 2024104815, 2227730452, 2361852424,
   2428436474, 2756734187, 3204031479, 3329325298]

/-- The eight 32-bit working registers of SHA-256. -/
structure Hash8 where
  a : Nat
  b : Nat
  c : Nat
  d : Nat
  e : Nat
  f : Nat
  g : Nat
  h : Nat

/-- SHA-256 initial hash value (fractional parts of the square roots of the
first 8 primes), in decimal. -/
def shaH0 : Hash8 :=
  ⟨1779033703, 3144134277, 1013904242, 2773480762,
   1359893119, 2600822924, 528734635, 1541459225⟩

/-- Merkle–Damgård padding: append `0x80`, zero bytes to 56 mod 64, and the
64-bit big-endian bit length. -/
def padBytes (msg : List Nat) : List Nat :=
  let len := msg.length
  let bitLen := 8 * len
  let r := (len + 1) % 64
  let zeros := if r ≤ 56 then 56 - r else 120 - r
  msg ++ [128] ++ List.replicate zeros 0 ++
    [bitLen >>> 56 % 256, bitLen >>> 48 % 256, bitLen >>> 40 % 256,
     bitLen >>> 32 % 256, bitLen >>> 24 % 256, bitLen >>> 16 % 256,
     bitLen >>> 8 % 256, bitLen % 256]

/-- Big-endian 4-byte grouping into 32-bit words. -/
def bytesToWords : List Nat → List Nat
  | b0 :: b1 :: b2 :: b3 :: rest =>
    (b0 * 16777216 + b1 * 65536 + b2 * 256 + b3) :: bytesToWords rest
  | _ => []

/-- Grouping of the padded word stream into 16-word blocks. -/
def words16 : List Nat → List (List Nat)
  | w0 :: w1 :: w2 :: w3 :: w4 :: w5 :: w6 :: w7 ::
    w8 :: w9 :: w10 :: w11 :: w12 :: w13 :: w14 :: w15 :: rest =>
    [w0, w1, w2, w3, w4, w5, w6, w7, w8, w9, w10, w11, w12, w13, w14, w15] ::
      words16 rest
  | _ => []

/-- Message-schedule extension: `acc` holds the schedule so far, most recent
word first; each step prepends `σ1(W[t-2]) + W[t-7] + σ0(W[t-15]) + W[t-16]`. -/
def scheduleAux : Nat → List Nat → List Nat
  | 0, acc => acc
  | n + 1, acc =>
    let wt := w32 (smallSigma1 (acc.getD 1 0) + acc.getD 6 0 +
                   smallSigma0 (acc.getD 14 0) + acc.getD 15 0)
    scheduleAux n (wt :: acc)

/-- The 64-word message schedule of one block. -/
def schedule (block : List Nat) : List Nat :=
  (scheduleAux 48 block.reverse).reverse

/-- One SHA-256 round; `kw` is `K[t] + W[t]`. -/
def roundStep (st : Hash8) (kw : Nat) : Hash8 :=
  let t1 := w32 (st.h + bigSigma1 st.e + shaCh st.e st.f st.g + kw)
  let t2 := w32 (bigSigma0 st.a + shaMaj st.a st.b st.c)
  ⟨w32 (t1 + t2), st.a, st.b, st.c, w32 (st.d + t1), st.e, st.f, st.g⟩

/-- Compression of one 16-word block into the running hash. -/
def compressBlock (hs : Hash8) (block : List Nat) : Hash8 :=
  let kws := (shaK.zip (schedule block)).map fun p => w32 (p.1 + p.2)
  let fin := kws.foldl roundStep hs
  ⟨w32 (hs.a + fin.a), w32 (hs.b + fin.b), w32 (hs.c + fin.c), w32 (hs.d + fin.d),
   w32 (hs.e + fin.e), w32 (hs.f + fin.f), w32 (hs.g + fin.g), w32 (hs.h + fin.h)⟩

/-- SHA-256 of a byte list, as the eight final hash words. -/
def sha256Words (msg : List Nat) : Hash8 :=
  (words16 (bytesToWords (padBytes msg))).foldl compressBlock shaH0

/-- Eight lower-case hex digits of a 32-bit word. -/
def hex8 (n : Nat) : String :=
  String.mk [hexDigitChar (n / 268435456 % 16), hexDigitChar (n / 16777216 % 16),
             hexDigitChar (n / 1048576 % 16), hexDigitChar (n / 65536 % 16),
             hexDigitChar (n / 4096 % 16), hexDigitChar (n / 256 % 16),
             hexDigitChar (n / 16 % 16), hexDigitChar (n % 16)]

/-- The `hashlib.sha256(...).hexdigest()`. -/
def sha256Hex (msg : List Nat) : String :=
  let hs := sha256Words msg
  hex8 hs.a ++ hex8 hs.b ++ hex8 hs.c ++ hex8 hs.d ++
    hex8 hs.e ++ hex8 hs.f ++ hex8 hs.g ++ hex8 hs.h

/-- UTF-8 bytes of a string that is pure ASCII (the canonical JSON rendering
is ASCII by `ensure_ascii`). -/
def strBytes (s : String) : List Nat := s.data.map charNat

/-- The `compute_checklist_digest` (`tick/core/models/checklist.py` lines 71-83):
SHA-256 hex digest of the canonical JSON serialization of the checklist's
dump.  The `_digest_cache` memo of the source caches this pure value on the
instance and never changes the result. -/
def compute_checklist_digest (checklist : Checklist) : String :=
  sha256Hex (strBytes (renderJson (checklistJson checklist)))

example : sha256Hex (strBytes "abc") =
    "ba7816bf8f01cfea414140de5dae2223b00361a396177a9cb410ff61f20015ad" := by
  decide

end Sha256

section SessionModel

/-- Timestamps (`datetime`) are opaque to the engine: it only stores them.
They are embedded as naturals. -/
abbrev Datetime := Nat

/-- The `Response` (`tick/core/models/session.py`). -/
structure Response where
  item_id : String
  result : ItemResult
  answered_at : Datetime
  notes : Option String
  evidence : List String
  matrix_context : Option MatrixCtx

/-- One entry of `build_resolved_items_payload` (`tick/core/utils.py`
lines 30-42). -/
structure ResolvedItemPayload where
  section_name : String
  item_id : String
  check : String
  severity : String
  guidance : Option String
  evidence_required : Bool
  matrix_context : Option MatrixCtx

/-- The `build_resolved_items_payload` (`tick/core/utils.py` lines 30-42). -/
def build_resolved_items_payload (items : List ResolvedItem) :
    List ResolvedItemPayload :=
  items.map fun resolved =>
    { section_name := resolved.section_name
      item_id := resolved.item.id
      check := resolved.item.check
      severity := resolved.item.severity.value
      guidance := resolved.item.guidance
      evidence_required := resolved.item.evidence_required
      matrix_context := resolved.matrix_context }

/-- The `Session` (`tick/core/models/session.py`), with the
`resolved_checklist`/`resolved_items` snapshot fields that
`ExecutionEngine.start`/`resume` (and the reporters) uniformly read and
write on sessions, held as optional values. -/
structure Session where
  id : String
  checklist_id : String
  started_at : Datetime
  checklist_path : Option String
  checklist_digest : Option String
  completed_at : Option Datetime
  status : SessionStatus
  «variables» : List (String × String)
  responses : List Response
  resolved_checklist : Option Json
  resolved_items : Option (List ResolvedItemPayload)

/-- The `validate_session_digest` (`tick/core/utils.py` lines 45-49): recompute
the digest and fail iff the session carries a non-empty stored digest that
differs; returns the fresh digest. -/
def validate_session_digest (session : Session) (checklist : Checklist) :
    Except String String :=
  let digest := compute_checklist_digest checklist
  match session.checklist_digest with
  | Option.none => .ok digest
  | some d =>
    if d ≠ "" ∧ d ≠ digest then
      .error "Checklist contents do not match the saved session."
    else .ok digest

/-- The `ensure_session_digest` (`tick/core/utils.py` lines 52-57): first-write-
wins digest binding; returns the updated session and whether it wrote. -/
def ensure_session_digest (session : Session) (checklist : Checklist) :
    Session × Bool :=
  match session.checklist_digest with
  | Option.none =>
    ({ session with checklist_digest := some (compute_checklist_digest checklist) }, true)
  | some _ => (session, false)

/-- The `EngineState` (`tick/core/state.py` lines 26-53).  The source shares the
`Session` object by reference across state values and mutates it in place;
the embedding threads the session value explicitly, which preserves every
observable of the most recently returned state. -/
structure EngineState where
  checklist : Checklist
  session : Session
  items : List ResolvedItem
  current_index : Nat

/-- The `EngineState.current_item`: the item at `current_index`, or `none` once
every item is answered. -/
def EngineState.current_item (st : EngineState) : Option ResolvedItem :=
  if st.current_index ≥ st.items.length then Option.none
  else st.items.get? st.current_index

/-- The `EngineState.with_response` (`tick/core/state.py` lines 55-62): append
the response and advance the pointer. -/
def EngineState.with_response (st : EngineState) (response : Response) : EngineState :=
  { st with
    session := { st.session with responses := st.session.responses ++ [response] }
    current_index := st.current_index + 1 }

/-- The `EngineState.with_completed` (`tick/core/state.py` lines 64-73). -/
def EngineState.with_completed (st : EngineState) (now : Datetime) : EngineState :=
  { st with
    session := { st.session with
                 completed_at := some now
                 status := .completed } }

/-- The `EngineState.with_back` (`tick/core/state.py` lines 75-94): error at the
first item; otherwise drop the last response (when any) and step back. -/
def EngineState.with_back (st : EngineState) : Except String EngineState :=
  if st.current_index = 0 then
    .error "Cannot go back - already at the first item."
  else
    .ok { st with
          session := { st.session with
                       responses := if st.session.responses.isEmpty then
                                      st.session.responses
                                    else st.session.responses.dropLast }
          current_index := st.current_index - 1 }

end SessionModel

section Engine

/-- Session variables (`dict[str, str]`) as the variable mapping that
`ExecutionEngine.resume` hands to `_expand_items`. -/
def sessionVarMap (vs : List (String × String)) : VarMap :=
  vs.map fun p => (p.1, .str p.2)

/-- The reconciliation walk of `ExecutionEngine.resume` (engine.py lines
191-196): each stored response must agree with the freshly expanded item at
its index on the underlying item id and on the normalized matrix key. -/
def matchResponses : List Response → List ResolvedItem → Except String Unit
  | [], _ => .ok ()
  | r :: rs, it :: its =>
    if r.item_id ≠ it.item.id then
      .error "Session responses do not match the checklist items."
    else if matrix_key r.matrix_context ≠ matrix_key it.matrix_context then
      .error "Session responses do not match the checklist items."
    else matchResponses rs its
  | _ :: _, [] => .error "Session responses do not match the checklist items."

/-- The `ExecutionEngine.start` (engine.py lines 160-184), with the effectful
inputs (generated session id, wall clock) as explicit parameters and the
constructor-default `cache=None`, under which `_expand_items_cached` is
`_expand_items`. -/
def ExecutionEngine.start (checklist : Checklist) (vars : VarMap)
    (checklist_path : String) (sid : String) (now : Datetime) :
    Except String EngineState := do
  let session_vars := vars.map fun p => (p.1, pyStr p.2)
  let items ← _expand_items checklist vars
  let resolved_items := build_resolved_items_payload items
  let session : Session :=
    { id := sid
      checklist_id := checklist.checklist_id
      started_at := now
      checklist_path := some checklist_path
      checklist_digest := Option.none
      completed_at := Option.none
      status := .in_progress
      «variables» := session_vars
      responses := []
      resolved_checklist := some (checklistJson checklist)
      resolved_items := some resolved_items }
  let session := (ensure_session_digest session checklist).1
  return { checklist := checklist, session := session, items := items, current_index := 0 }

/-- The `ExecutionEngine.resume` (engine.py lines 186-213) with `cache=None`:
digest validation, re-expansion from the session's stored variables, the
shrink check, the reconciliation walk, back-filling of the snapshot fields,
and positioning after the last recorded response. -/
def ExecutionEngine.resume (checklist : Checklist) (session : Session) :
    Except String EngineState := do
  let _ ← validate_session_digest session checklist
  let items ← _expand_items checklist (sessionVarMap session.«variables»)
  if session.responses.length > items.length then
    .error "Session responses do not match the checklist items."
  else do
    let _ ← matchResponses session.responses items
    let current_index := session.responses.length
    let session :=
      { session with
        resolved_checklist :=
          match session.resolved_checklist with
          | Option.none => some (checklistJson checklist)
          | some x => some x
        resolved_items :=
          match session.resolved_items with
          | Option.none => some (build_resolved_items_payload items)
          | some x => some x }
    return { checklist := checklist, session := session, items := items,
             current_index := current_index }

/-- The `ExecutionEngine.record_response` (engine.py lines 215-237): build a
`Response` from the arguments plus the wall clock and append it via
`with_response`.  The source does not check the item against the current
item, nor that any item remains. -/
def ExecutionEngine.record_response (item : ChecklistItem) (result : ItemResult)
    (notes : Option String) (evidence : List String)
    (matrix_context : Option MatrixCtx) (now : Datetime)
    (st : EngineState) : EngineState :=
  st.with_response
    { item_id := item.id
      result := result
      answered_at := now
      notes := notes
      evidence := evidence
      matrix_context := matrix_context }

/-- The `ExecutionEngine.go_back` (engine.py lines 239-246). -/
def ExecutionEngine.go_back (st : EngineState) : Except String EngineState :=
  st.with_back

/-- The `ExecutionEngine.complete` (engine.py lines 248-254). -/
def ExecutionEngine.complete (st : EngineState) (now : Datetime) : EngineState :=
  st.with_completed now

end Engine

section Reachability

/-- One engine transition as the source exposes them: `record_response`
imposes no constraint on its arguments or on the pointer, `go_back` must
succeed, `complete` always applies. -/
inductive EngineStep : EngineState → EngineState → Prop
  | record (item : ChecklistItem) (result : ItemResult) (notes : Option String)
      (evidence : List String) (matrix_context : Option MatrixCtx)
      (now : Datetime) (st : EngineState) :
      EngineStep st
        (ExecutionEngine.record_response item result notes evidence matrix_context now st)
  | back (st st' : EngineState) : ExecutionEngine.go_back st = .ok st' →
      EngineStep st st'
  | complete (now : Datetime) (st : EngineState) :
      EngineStep st (ExecutionEngine.complete st now)

/-- Engine states reachable from a successful `start` or `resume` through
arbitrary `record_response` / `go_back` / `complete` transitions. -/
inductive EngineReach : EngineState → Prop
  | fromStart (c : Checklist) (vars : VarMap) (path sid : String) (now : Datetime)
      (st : EngineState) : ExecutionEngine.start c vars path sid now = .ok st →
      EngineReach st
  | fromResume (c : Checklist) (session : Session) (st : EngineState) :
      ExecutionEngine.resume c session = .ok st → EngineReach st
  | step (st st' : EngineState) : EngineReach st → EngineStep st st' →
      EngineReach st'

/-- Engine states reachable when the caller (as the interactive and batch
drivers do) only records a response while an item remains, i.e. while
`current_index < len(items)`; `go_back` and `complete` are unrestricted. -/
inductive GuardedReach : EngineState → Prop
  | fromStart (c : Checklist) (vars : VarMap) (path sid : String) (now : Datetime)
      (st : EngineState) : ExecutionEngine.start c vars path sid now = .ok st →
      GuardedReach st
  | fromResume (c : Checklist) (session : Session) (st : EngineState) :
      ExecutionEngine.resume c session = .ok st → GuardedReach st
  | record (item : ChecklistItem) (result : ItemResult) (notes : Option String)
      (evidence : List String) (matrix_context : Option MatrixCtx)
      (now : Datetime) (st : EngineState) :
      GuardedReach st → st.current_index < st.items.length →
      GuardedReach
        (ExecutionEngine.record_response item result notes evidence matrix_context now st)
  | back (st st' : EngineState) : GuardedReach st →
      ExecutionEngine.go_back st = .ok st' → GuardedReach st'
  | complete (now : Datetime) (st : EngineState) : GuardedReach st →
      GuardedReach (ExecutionEngine.complete st now)

/-- Zero or more `record_response` transitions (arbitrary arguments). -/
inductive RecordOnly : EngineState → EngineState → Prop
  | refl (st : EngineState) : RecordOnly st st
  | step (st st' : EngineState) (item : ChecklistItem) (result : ItemResult)
      (notes : Option String) (evidence : List String)
      (matrix_context : Option MatrixCtx) (now : Datetime) :
      RecordOnly st st' →
      RecordOnly st
        (ExecutionEngine.record_response item result notes evidence matrix_context now st')

/-- Zero or more `record_response` transitions in which the caller records
the current item with its own matrix context (the driver loop's behaviour:
`engine.record_response(item=current.item, ..., matrix_context=
current.matrix_context)`). -/
inductive HonestRecords : EngineState → EngineState → Prop
  | refl (st : EngineState) : HonestRecords st st
  | step (st st' : EngineState) (result : ItemResult) (notes : Option String)
      (evidence : List String) (now : Datetime)
      (h : st'.current_index < st'.items.length) :
      HonestRecords st st' →
      HonestRecords st
        (ExecutionEngine.record_response (st'.items.get ⟨st'.current_index, h⟩).item
          result notes evidence
          (st'.items.get ⟨st'.current_index, h⟩).matrix_context now st')

end Reachability

section Fixtures

/-- The single item of the test fixtures' minimal checklist. -/
def itemBasic : ChecklistItem :=
  { id := "item-1", check := "Do the thing", severity := .medium,
    guidance := Option.none, evidence_required := false,
    condition := Option.none, matrix := Option.none }

/-- An item that does not occur in `minimalChecklist`. -/
def itemOther : ChecklistItem :=
  { id := "other", check := "Another thing", severity := .medium,
    guidance := Option.none, evidence_required := false,
    condition := Option.none, matrix := Option.none }

/-- An item carrying a present but empty matrix list. -/
def itemEmptyMatrix : ChecklistItem :=
  { id := "em-1", check := "Empty matrix", severity := .medium,
    guidance := Option.none, evidence_required := false,
    condition := Option.none, matrix := some [] }

/-- An item with a two-entry matrix. -/
def itemMatrix : ChecklistItem :=
  { id := "matrix-1", check := "Matrix check", severity := .medium,
    guidance := Option.none, evidence_required := false,
    condition := Option.none, matrix := some [[("role", "user")], [("role", "admin")]] }

/-- The `minimal_checklist` test fixture (tests/conftest.py). -/
def minimalChecklist : Checklist :=
  { name := "Minimal Checklist", version := "1.0.0", domain := "web",
    metadata := ⟨Option.none, [], Option.none⟩,
    «variables» := [],
    sections := [{ name := "Basics", condition := Option.none, items := [itemBasic] }] }

/-- A checklist whose only item has a present but empty matrix. -/
def emptyMatrixChecklist : Checklist :=
  { name := "EM", version := "1.0.0", domain := "web",
    metadata := ⟨Option.none, [], Option.none⟩,
    «variables» := [],
    sections := [{ name := "S", condition := Option.none, items := [itemEmptyMatrix] }] }

end Fixtures

section ExceptLemmas

theorem exceptBind_ok {ε α β : Type} (x : Except ε α) (f : α → Except ε β) (b : β) :
    (x >>= f) = .ok b ↔ ∃ a, x = .ok a ∧ f a = .ok b := by
  cases x <;> simp [Bind.bind, Except.bind]

theorem exceptMap_ok {ε α β : Type} (x : Except ε α) (f : α → β) (b : β) :
    (f <$> x) = .ok b ↔ ∃ a, x = .ok a ∧ f a = b := by
  cases x <;> simp [Functor.map, Except.map]

theorem exceptBind_ok_apply {ε α β : Type} (a : α) (f : α → Except ε β) :
    ((Except.ok a : Except ε α) >>= f) = f a := rfl

theorem exceptBind_error_apply {ε α β : Type} (e : ε) (f : α → Except ε β) :
    ((Except.error e : Except ε α) >>= f) = .error e := rfl

end ExceptLemmas

section InversionLemmas

theorem matchResponses_ok_iff (rs : List Response) (its : List ResolvedItem) :
    matchResponses rs its = .ok () ↔
      (rs.length ≤ its.length ∧
       ∀ i (h1 : i < rs.length) (h2 : i < its.length),
         (rs.get ⟨i, h1⟩).item_id = (its.get ⟨i, h2⟩).item.id ∧
         matrix_key (rs.get ⟨i, h1⟩).matrix_context =
           matrix_key (its.get ⟨i, h2⟩).matrix_context) := by
  induction rs generalizing its with
  | nil => simp [matchResponses]
  | cons r rs ih =>
    cases its with
    | nil =>
      simp [matchResponses]
    | cons it its =>
      rw [matchResponses]
      by_cases e1 : r.item_id = it.item.id
      · rw [if_neg (fun hc => hc e1)]
        by_cases e2 : matrix_key r.matrix_context = matrix_key it.matrix_context
        · rw [if_neg (fun hc => hc e2), ih]
          constructor
          · rintro ⟨hlen, hall⟩
            refine ⟨Nat.succ_le_succ hlen, ?_⟩
            intro i h1 h2
            cases i with
            | zero => exact ⟨e1, e2⟩
            | succ n =>
              exact hall n (Nat.lt_of_succ_lt_succ h1) (Nat.lt_of_succ_lt_succ h2)
          · rintro ⟨hlen, hall⟩
            refine ⟨Nat.le_of_succ_le_succ hlen, ?_⟩
            intro i h1 h2
            exact hall (i + 1) (Nat.succ_lt_succ h1) (Nat.succ_lt_succ h2)
        · rw [if_pos e2]
          constructor
          · intro h; cases h
          · rintro ⟨hlen, hall⟩
            exact absurd (hall 0 (Nat.succ_pos _) (Nat.succ_pos _)).2 e2
      · rw [if_pos e1]
        constructor
        · intro h; cases h
        · rintro ⟨hlen, hall⟩
          exact absurd (hall 0 (Nat.succ_pos _) (Nat.succ_pos _)).1 e1

theorem resume_ok_inv (c : Checklist) (s : Session) (st : EngineState)
    (h : ExecutionEngine.resume c s = .ok st) :
    _expand_items c (sessionVarMap s.«variables») = .ok st.items ∧
    s.responses.length ≤ st.items.length ∧
    matchResponses s.responses st.items = .ok () ∧
    st.current_index = s.responses.length ∧
    st.checklist = c ∧
    st.session.responses = s.responses ∧
    st.session.«variables» = s.«variables» ∧
    st.session.checklist_digest = s.checklist_digest := by
  unfold ExecutionEngine.resume at h
  rw [exceptBind_ok] at h
  obtain ⟨d, hd, h⟩ := h
  rw [exceptBind_ok] at h
  obtain ⟨items, hitems, h⟩ := h
  by_cases hlen : s.responses.length > items.length
  · rw [if_pos hlen] at h
    cases h
  · rw [if_neg hlen] at h
    rw [exceptBind_ok] at h
    obtain ⟨u, hm, h⟩ := h
    simp only [pure, Except.pure, Except.ok.injEq] at h
    subst h
    obtain ⟨⟩ := u
    exact ⟨hitems, Nat.le_of_not_lt hlen, hm, rfl, rfl, rfl, rfl, rfl⟩

theorem start_ok_inv (c : Checklist) (vars : VarMap) (path sid : String)
    (now : Datetime) (st : EngineState)
    (h : ExecutionEngine.start c vars path sid now = .ok st) :
    _expand_items c vars = .ok st.items ∧
    st.session.«variables» = vars.map (fun p => (p.1, pyStr p.2)) ∧
    st.session.checklist_digest = some (compute_checklist_digest c) ∧
    st.session.responses = [] ∧
    st.current_index = 0 ∧
    st.checklist = c := by
  unfold ExecutionEngine.start at h
  rw [exceptBind_ok] at h
  obtain ⟨items, hitems, h⟩ := h
  simp only [pure, Except.pure, ensure_session_digest, Except.ok.injEq] at h
  subst h
  exact ⟨hitems, rfl, rfl, rfl, rfl, rfl⟩

end InversionLemmas

section WhitelistComplement

mutual
/-- Containment of a node outside the allowed set (boolean `and`/`or`, unary
`not`, comparisons `==`/`!=`/`in`/`not in`, name references, constant
literals, list/tuple literals) anywhere in the tree — the specification's
reading of "contains any node outside the allowed set". -/
def hasDisallowed : PyExpr → Bool
  | .boolOp _ values => hasDisallowedList values
  | .unaryOp .notK operand => hasDisallowed operand
  | .unaryOp .uSubK _ => true
  | .compare left pairs => hasDisallowed left || hasDisallowedPairs pairs
  | .name _ => false
  | .const _ => false
  | .listLit elts => hasDisallowedList elts
  | .tupleLit elts => hasDisallowedList elts
  | .binOp _ _ => true
  | .call _ _ => true
  | .attribute _ _ => true

/-- The `hasDisallowed` over child lists. -/
def hasDisallowedList : List PyExpr → Bool
  | [] => false
  | e :: es => hasDisallowed e || hasDisallowedList es

/-- The `hasDisallowed` over comparison pairs (`<`/`>` stand for the comparison
operators outside the whitelist). -/
def hasDisallowedPairs : List (CmpOpK × PyExpr) → Bool
  | [] => false
  | (op, e) :: rest =>
    (match op with
     | .ltK => true | .gtK => true
     | .eqK => false | .neK => false | .inK => false | .notInK => false) ||
    hasDisallowed e || hasDisallowedPairs rest
end

mutual
theorem walkAllowed_eq_not_hasDisallowed : ∀ e, walkAllowed e = !hasDisallowed e
  | .boolOp op values => by
    rw [walkAllowed, hasDisallowed, walkAllowedList_eq_not values]
  | .unaryOp op operand => by
    cases op <;>
      simp [walkAllowed, hasDisallowed, walkAllowed_eq_not_hasDisallowed operand]
  | .compare left pairs => by
    rw [walkAllowed, hasDisallowed, walkAllowed_eq_not_hasDisallowed left,
        walkAllowedPairs_eq_not pairs]
    simp [Bool.not_or]
  | .name id => rfl
  | .const v => rfl
  | .listLit elts => by
    rw [walkAllowed, hasDisallowed, walkAllowedList_eq_not elts]
  | .tupleLit elts => by
    rw [walkAllowed, hasDisallowed, walkAllowedList_eq_not elts]
  | .binOp a b => rfl
  | .call f args => rfl
  | .attribute o a => rfl

theorem walkAllowedList_eq_not : ∀ es, walkAllowedList es = !hasDisallowedList es
  | [] => rfl
  | e :: es => by
    rw [walkAllowedList, hasDisallowedList, walkAllowed_eq_not_hasDisallowed e,
        walkAllowedList_eq_not es]
    simp [Bool.not_or]

theorem walkAllowedPairs_eq_not : ∀ ps, walkAllowedPairs ps = !hasDisallowedPairs ps
  | [] => rfl
  | (op, e) :: rest => by
    simp only [walkAllowedPairs, hasDisallowedPairs,
      walkAllowed_eq_not_hasDisallowed e, walkAllowedPairs_eq_not rest]
    cases op <;> simp [Bool.not_or]
end

end WhitelistComplement

section ClaimC2

/-- C2 — Expansion determinism: `_expand_items` is a pure function of the
checklist and the variable mapping (the embedding has no hidden state, matching
the source, which reads nothing but its two arguments), so two calls with the
same checklist and variables yield identical ordered sequences of
`ResolvedItem`s. -/
theorem expand_items_deterministic (c : Checklist) (vars : VarMap) :
    _expand_items c vars = _expand_items c vars := rfl

end ClaimC2

section ClaimC3

/-- C3 — Condition whitelist fail-closed: for every parseable, non-empty
condition whose parsed expression tree contains any node outside the allowed
set (`hasDisallowed`), and for every variable mapping, `_safe_eval_condition`
raises (`Except.error`) rather than evaluating the tree or returning a
default boolean. -/
theorem condition_whitelist_fail_closed (cond : Cond) (vars : VarMap)
    (hsrc : cond.src ≠ "") (hbad : hasDisallowed cond.ast = true) :
    safe_eval_condition cond vars =
      .error ("Unsupported expression in condition: " ++ cond.src) := by
  unfold safe_eval_condition
  rw [if_neg hsrc, walkAllowed_eq_not_hasDisallowed, hbad]
  rfl

theorem condition_whitelist_fail_closed_witness :
    safe_eval_condition ⟨"1 + 1", .binOp (.const (.int 1)) (.const (.int 1))⟩ [] =
      .error "Unsupported expression in condition: 1 + 1" :=
  condition_whitelist_fail_closed
    ⟨"1 + 1", .binOp (.const (.int 1)) (.const (.int 1))⟩ [] (by decide) rfl

end ClaimC3

section ClaimC4

/-- C4 counterexample — the claim asserts that a condition referencing a
variable whose value is the empty string raises an evaluation error; the
code (and its own test suite, `test_safe_eval_condition_basic`) instead
evaluates `"not environment"` against `environment = ""` to `True`: the
empty string is an ordinary falsy value, not an error. -/
theorem missing_variable_error_cex :
    safe_eval_condition ⟨"not environment", .unaryOp .notK (.name "environment")⟩
      [("environment", .str "")] = .ok true := rfl

/-- C4 amended — referencing a name absent from the variable mapping, or one
bound to `None`, is an evaluation error when that reference is evaluated (in
particular, a condition that is a bare name reference errors); a variable
bound to the empty string is not an error. -/
theorem missing_variable_error (vars : VarMap) (id : String)
    (habs : lookupVar vars id = Option.none ∨ lookupVar vars id = some .none) :
    pyEval vars (.name id) = .error "Missing variable" ∧
    ∀ cond : Cond, cond.ast = .name id → cond.src ≠ "" →
      safe_eval_condition cond vars = .error "Missing variable" := by
  have h1 : pyEval vars (.name id) = .error "Missing variable" := by
    rcases habs with h | h <;> simp [pyEval, h]
  refine ⟨h1, ?_⟩
  intro cond hast hsrc
  unfold safe_eval_condition
  rw [if_neg hsrc, hast]
  simp [walkAllowed, h1, Bind.bind, Except.bind]

theorem missing_variable_error_witness :
    safe_eval_condition ⟨"missing", .name "missing"⟩ [("environment", .str "prod")] =
      .error "Missing variable" :=
  (missing_variable_error [("environment", .str "prod")] "missing" (Or.inl rfl)).2
    ⟨"missing", .name "missing"⟩ rfl (by decide)

end ClaimC4

section ExpansionStructure

theorem expandSectionItems_kept (vars : VarMap) (sname : String)
    (kf : ChecklistItem → Bool) (items : List ChecklistItem)
    (hk : ∀ i ∈ items, keepCond i.condition vars = .ok (kf i)) :
    expandSectionItems vars sname items =
      .ok ((items.filter kf).flatMap fun i => itemResolved sname i) := by
  induction items with
  | nil => rfl
  | cons i rest ih =>
    rw [expandSectionItems, hk i (List.mem_cons_self i rest),
        ih fun j hj => hk j (List.mem_cons_of_mem i hj)]
    cases hkf : kf i <;>
      simp [Bind.bind, Except.bind, pure, Except.pure, List.filter_cons, hkf]

theorem expandSections_kept (vars : VarMap) (sf : ChecklistSection → Bool)
    (kf : ChecklistItem → Bool) (sections : List ChecklistSection)
    (hs : ∀ s ∈ sections, keepCond s.condition vars = .ok (sf s))
    (hk : ∀ s ∈ sections, sf s = true → ∀ i ∈ s.items,
      keepCond i.condition vars = .ok (kf i)) :
    expandSections vars sections =
      .ok ((sections.filter sf).flatMap fun s =>
        (s.items.filter kf).flatMap fun i => itemResolved s.name i) := by
  induction sections with
  | nil => rfl
  | cons s rest ih =>
    rw [expandSections, hs s (List.mem_cons_self s rest),
        ih (fun t ht => hs t (List.mem_cons_of_mem s ht))
           (fun t ht => hk t (List.mem_cons_of_mem s ht))]
    cases hsf : sf s
    · simp [Bind.bind, Except.bind, pure, Except.pure, List.filter_cons, hsf]
    · rw [expandSectionItems_kept vars s.name kf s.items
          (hk s (List.mem_cons_self s rest) hsf)]
      simp [Bind.bind, Except.bind, pure, Except.pure, List.filter_cons, hsf]

end ExpansionStructure

section ClaimC5

/-- C5 amended — Matrix expansion cardinality for non-empty matrices: when
every section/item condition evaluates (sections kept per `sf`, items kept
per `kf`), `_expand_items` emits, for each kept item in document order,
exactly its `itemResolved` block; a kept item with matrix entries
`e₀, …, e_(N-1)` (N ≥ 1) contributes exactly N `ResolvedItem`s, the k-th
carrying `matrix_context` equal to the k-th matrix entry, in matrix-list
order; a kept item without a matrix contributes exactly one `ResolvedItem`
with no matrix context.  (An item with a present but em­pty matrix list also
contributes one context-free `ResolvedItem` — see the counterexample — so the
claim's "exactly N" holds only for N ≥ 1.) -/
theorem matrix_expansion_cardinality (c : Checklist) (vars : VarMap)
    (sf : ChecklistSection → Bool) (kf : ChecklistItem → Bool)
    (hs : ∀ s ∈ c.sections, keepCond s.condition vars = .ok (sf s))
    (hk : ∀ s ∈ c.sections, sf s = true → ∀ i ∈ s.items,
      keepCond i.condition vars = .ok (kf i)) :
    _expand_items c vars =
      .ok ((c.sections.filter sf).flatMap fun s =>
        (s.items.filter kf).flatMap fun i => itemResolved s.name i) ∧
    (∀ (sname : String) (item : ChecklistItem) (entry : MatrixCtx)
        (entries : List MatrixCtx), item.matrix = some (entry :: entries) →
      itemResolved sname item =
        (entry :: entries).map fun e => ⟨sname, item, some e⟩) ∧
    (∀ (sname : String) (item : ChecklistItem), item.matrix = Option.none →
      itemResolved sname item = [⟨sname, item, Option.none⟩]) := by
  refine ⟨expandSections_kept vars sf kf c.sections hs hk, ?_, ?_⟩
  · intro sname item entry entries hm
    unfold itemResolved
    rw [hm]
  · intro sname item hm
    unfold itemResolved
    rw [hm]

/-- C5 counterexample — a kept item whose `matrix` field is present with
length 0: the claim's "exactly N ResolvedItems" would demand zero, but the
expansion emits one (`if item.matrix:` is falsy for the empty list). -/
theorem matrix_expansion_cardinality_cex :
    itemEmptyMatrix.matrix = some [] ∧
    _expand_items emptyMatrixChecklist [] =
      .ok [⟨"S", itemEmptyMatrix, Option.none⟩] :=
  ⟨rfl, rfl⟩

end ClaimC5

section ClaimC10

/-- C10 — Empty matrix treated as no matrix: a kept item whose `matrix` field
is present but an empty list expands to exactly one `ResolvedItem` with no
matrix context (`if item.matrix:` is falsy for `[]`, taking the same branch
as an absent matrix), not zero. -/
theorem empty_matrix_single_item (vars : VarMap) (sname : String)
    (item : ChecklistItem) (hm : item.matrix = some [])
    (hkeep : keepCond item.condition vars = .ok true) :
    itemResolved sname item = [⟨sname, item, Option.none⟩] ∧
    expandSectionItems vars sname [item] = .ok [⟨sname, item, Option.none⟩] := by
  have hi : itemResolved sname item = [⟨sname, item, Option.none⟩] := by
    unfold itemResolved
    rw [hm]
  refine ⟨hi, ?_⟩
  rw [expandSectionItems, hkeep]
  simp [Bind.bind, Except.bind, expandSectionItems, pure, Except.pure, hi]

theorem empty_matrix_single_item_witness :
    itemResolved "S" itemEmptyMatrix = [⟨"S", itemEmptyMatrix, Option.none⟩] ∧
    expandSectionItems [] "S" [itemEmptyMatrix] =
      .ok [⟨"S", itemEmptyMatrix, Option.none⟩] :=
  empty_matrix_single_item [] "S" itemEmptyMatrix rfl rfl

end ClaimC10

section ClaimC5Witness

/-- A checklist whose single section holds the two-entry matrix item. -/
def matrixChecklist : Checklist :=
  { name := "Matrix", version := "1.0.0", domain := "web",
    metadata := ⟨Option.none, [], Option.none⟩,
    «variables» := [],
    sections := [{ name := "M", condition := Option.none, items := [itemMatrix] }] }

theorem matrix_expansion_cardinality_witness :
    _expand_items matrixChecklist [] =
      .ok [⟨"M", itemMatrix, some [("role", "user")]⟩,
           ⟨"M", itemMatrix, some [("role", "admin")]⟩] :=
  (matrix_expansion_cardinality matrixChecklist [] (fun _ => true) (fun _ => true)
    (by intro s hmem; obtain rfl := List.mem_singleton.mp hmem; rfl)
    (by
      intro s hmem hkeep i himem
      obtain rfl := List.mem_singleton.mp hmem
      obtain rfl := List.mem_singleton.mp himem
      rfl)).1

end ClaimC5Witness

section ClaimC9

theorem recordOnly_length (st0 st : EngineState) (h : RecordOnly st0 st)
    (h0 : st0.session.responses.length = st0.current_index) :
    st.session.responses.length = st.current_index := by
  induction h with
  | refl => exact h0
  | step st' item result notes evidence mc now hro ih =>
    simp [ExecutionEngine.record_response, EngineState.with_response, ih]

/-- C9 — Go-back is the inverse of record: from any state at index `i > 0`
reached from `start` by `record_response` calls, `go_back()` succeeds, and
re-recording the removed response returns to index `i` with a response list
equal to the one before `go_back`; at `current_index == 0`, `go_back()`
raises (in the embedding: returns the error without producing a state, so
the session is untouched — the source raises before mutating). -/
theorem go_back_inverse_of_record (c : Checklist) (vars : VarMap)
    (path sid : String) (now0 : Datetime) (st0 st : EngineState) (i : Nat)
    (h0 : ExecutionEngine.start c vars path sid now0 = .ok st0)
    (hr : RecordOnly st0 st) (hi : st.current_index = i) :
    (0 < i →
      ∃ st' r, st.session.responses.getLast? = some r ∧
        ExecutionEngine.go_back st = .ok st' ∧
        (st'.with_response r).current_index = i ∧
        (st'.with_response r).session.responses = st.session.responses) ∧
    (i = 0 → ExecutionEngine.go_back st =
      .error "Cannot go back - already at the first item.") := by
  obtain ⟨-, -, -, hresp0, hidx0, -⟩ := start_ok_inv _ _ _ _ _ _ h0
  have hlen : st.session.responses.length = st.current_index :=
    recordOnly_length st0 st hr (by rw [hresp0, hidx0]; rfl)
  subst hi
  constructor
  · intro hpos
    have hne : st.session.responses ≠ [] := by
      intro hnil
      rw [hnil] at hlen
      simp at hlen
      omega
    have hisE : st.session.responses.isEmpty = false := by
      cases hcase : st.session.responses with
      | nil => exact absurd hcase hne
      | cons a as => rfl
    refine ⟨{ st with
        session := { st.session with responses := st.session.responses.dropLast }
        current_index := st.current_index - 1 },
      st.session.responses.getLast hne, List.getLast?_eq_getLast _ hne, ?_, ?_, ?_⟩
    · unfold ExecutionEngine.go_back EngineState.with_back
      rw [if_neg (by omega : ¬ st.current_index = 0), hisE]
      rfl
    · simp only [EngineState.with_response]
      omega
    · simp only [EngineState.with_response]
      exact List.dropLast_append_getLast hne
  · intro hzero
    unfold ExecutionEngine.go_back EngineState.with_back
    rw [if_pos hzero]

theorem go_back_inverse_of_record_witness :
    ∃ st0 st1,
      ExecutionEngine.start minimalChecklist [] "checklist.yaml" "sid" 0 = .ok st0 ∧
      st1 = ExecutionEngine.record_response itemBasic .pass Option.none [] Option.none 1 st0 ∧
      ExecutionEngine.go_back st0 =
        .error "Cannot go back - already at the first item." ∧
      (∃ st' r, st1.session.responses.getLast? = some r ∧
        ExecutionEngine.go_back st1 = .ok st' ∧
        (st'.with_response r).current_index = 1 ∧
        (st'.with_response r).session.responses = st1.session.responses) := by
  refine ⟨_, _, rfl, rfl, ?_, ?_⟩
  · exact (go_back_inverse_of_record minimalChecklist [] "checklist.yaml" "sid" 0
      _ _ 0 rfl (RecordOnly.refl _) rfl).2 rfl
  · exact (go_back_inverse_of_record minimalChecklist [] "checklist.yaml" "sid" 0
      _ _ 1 rfl
      (RecordOnly.step _ _ itemBasic .pass Option.none [] Option.none 1
        (RecordOnly.refl _)) rfl).1 Nat.one_pos

end ClaimC9

section ClaimC8

theorem guardedReach_invariant (st : EngineState) (h : GuardedReach st) :
    st.session.responses.length = st.current_index ∧
    st.current_index ≤ st.items.length := by
  induction h with
  | fromStart c vars path sid now st hstart =>
    obtain ⟨-, -, -, hresp, hidx, -⟩ := start_ok_inv _ _ _ _ _ _ hstart
    rw [hresp, hidx]
    exact ⟨rfl, Nat.zero_le _⟩
  | fromResume c session st hres =>
    obtain ⟨-, hle, -, hidx, -, hresp, -, -⟩ := resume_ok_inv _ _ _ hres
    rw [hresp, hidx]
    exact ⟨rfl, hle⟩
  | record item result notes evidence mc now st hre hlt ih =>
    obtain ⟨ih1, ih2⟩ := ih
    simp only [ExecutionEngine.record_response, EngineState.with_response,
      List.length_append, List.length_cons, List.length_nil]
    omega
  | back st st' hre hgo ih =>
    obtain ⟨ih1, ih2⟩ := ih
    unfold ExecutionEngine.go_back EngineState.with_back at hgo
    by_cases h0 : st.current_index = 0
    · rw [if_pos h0] at hgo
      cases hgo
    · rw [if_neg h0] at hgo
      injection hgo with hgo
      subst hgo
      cases hcase : st.session.responses with
      | nil =>
        rw [hcase] at ih1
        simp at ih1
        omega
      | cons a as =>
        rw [hcase] at ih1
        simp only [hcase, List.isEmpty_cons, List.length_dropLast, List.length_cons,
          if_neg (by simp : ¬ (false = true))]
        simp only [List.length_cons] at ih1
        constructor <;> omega
  | complete now st hre ih =>
    simpa [ExecutionEngine.complete, EngineState.with_completed] using ih

/-- C8 amended — Response-prefix bound: for every EngineState reachable from
`start()` or a successful `resume()` by `go_back`, `complete`, and
`record_response` transitions in which a response is only recorded while an
item remains (`current_index < len(items)`, i.e. `current_item` is not
`None`, as the interactive and batch drivers guarantee),
`len(session.responses) <= len(items)` holds, where `items` is the state's
frozen expansion sequence. -/
theorem response_bound_invariant (st : EngineState) (h : GuardedReach st) :
    st.session.responses.length ≤ st.items.length := by
  obtain ⟨h1, h2⟩ := guardedReach_invariant st h
  omega

theorem response_bound_invariant_witness :
    ∃ st, GuardedReach st ∧ st.session.responses.length ≤ st.items.length :=
  ⟨_, GuardedReach.fromStart minimalChecklist [] "checklist.yaml" "sid" 0 _ rfl,
    response_bound_invariant _
      (GuardedReach.fromStart minimalChecklist [] "checklist.yaml" "sid" 0 _ rfl)⟩

/-- C8 counterexample — `record_response` performs no bound check, so a state
violating `len(responses) <= len(items)` is reachable: starting the
one-item minimal checklist and recording two responses gives 2 responses
against 1 item. -/
theorem response_bound_cex :
    ∃ st0 st,
      ExecutionEngine.start minimalChecklist [] "checklist.yaml" "sid" 0 = .ok st0 ∧
      st = ExecutionEngine.record_response itemBasic .pass Option.none [] Option.none 2
             (ExecutionEngine.record_response itemBasic .pass Option.none [] Option.none 1 st0) ∧
      EngineReach st ∧ st.items.length < st.session.responses.length := by
  refine ⟨_, _, rfl, rfl, ?_, ?_⟩
  · exact EngineReach.step _ _
      (EngineReach.step _ _
        (EngineReach.fromStart minimalChecklist [] "checklist.yaml" "sid" 0 _ rfl)
        (EngineStep.record itemBasic .pass Option.none [] Option.none 1 _))
      (EngineStep.record itemBasic .pass Option.none [] Option.none 2 _)
  · decide

end ClaimC8

section ClaimC1

theorem validate_ok_of_digest (c : Checklist) (s : Session)
    (hd : s.checklist_digest = Option.none ∨
          s.checklist_digest = some (compute_checklist_digest c)) :
    validate_session_digest s c = .ok (compute_checklist_digest c) := by
  unfold validate_session_digest
  rcases hd with h | h <;> rw [h]
  simp

theorem resume_ok_construct (c : Checklist) (s : Session)
    (items : List ResolvedItem) (d : String)
    (hval : validate_session_digest s c = .ok d)
    (he : _expand_items c (sessionVarMap s.«variables») = .ok items)
    (hlen : s.responses.length ≤ items.length)
    (hmatch : matchResponses s.responses items = .ok ()) :
    ∃ st, ExecutionEngine.resume c s = .ok st ∧
      st.current_index = s.responses.length ∧ st.items = items := by
  unfold ExecutionEngine.resume
  rw [hval, exceptBind_ok_apply, he, exceptBind_ok_apply,
      if_neg (Nat.not_lt.mpr hlen), hmatch, exceptBind_ok_apply]
  exact ⟨_, rfl, rfl, rfl⟩

/-- C1 — Resume contract: for every checklist and session whose stored digest
is absent or equal to the checklist's current digest, and whose stored
variables expand successfully to `items`, `resume` succeeds iff the session
has at most as many responses as `items` and, at every index below
`len(responses)`, the response's `item_id` equals the expanded item's
underlying item id and the normalized matrix key of the response's
`matrix_context` equals that of the expanded item's; on success the
resulting `EngineState` has `current_index = len(responses)`, and otherwise
an error is raised (no state is produced). -/
theorem resume_contract (c : Checklist) (s : Session) (items : List ResolvedItem)
    (hd : s.checklist_digest = Option.none ∨
          s.checklist_digest = some (compute_checklist_digest c))
    (he : _expand_items c (sessionVarMap s.«variables») = .ok items) :
    ((∃ st, ExecutionEngine.resume c s = .ok st) ↔
      (s.responses.length ≤ items.length ∧
       ∀ i (h1 : i < s.responses.length) (h2 : i < items.length),
         s.responses[i].item_id = items[i].item.id ∧
         matrix_key s.responses[i].matrix_context =
           matrix_key items[i].matrix_context)) ∧
    (∀ st, ExecutionEngine.resume c s = .ok st →
      st.current_index = s.responses.length) := by
  constructor
  · constructor
    · rintro ⟨st, hst⟩
      obtain ⟨he', hle, hmatch, -, -, -, -, -⟩ := resume_ok_inv _ _ _ hst
      have hit : st.items = items := by
        rw [he'] at he
        exact (Except.ok.injEq _ _).mp he
      rw [hit] at hle hmatch
      have := (matchResponses_ok_iff s.responses items).mp hmatch
      exact ⟨hle, fun i h1 h2 => this.2 i h1 h2⟩
    · rintro ⟨hle, hall⟩
      obtain ⟨st, hst, -, -⟩ := resume_ok_construct c s items
        (compute_checklist_digest c) (validate_ok_of_digest c s hd) he hle
        ((matchResponses_ok_iff s.responses items).mpr
          ⟨hle, fun i h1 h2 => hall i h1 h2⟩)
      exact ⟨st, hst⟩
  · intro st hst
    exact (resume_ok_inv _ _ _ hst).2.2.2.1

/-- The session a caller would persist after answering the minimal
checklist's single item (digest not yet bound, one matching response). -/
def demoSession : Session :=
  { id := "s1", checklist_id := "minimal-checklist-1.0.0",
    started_at := 0, checklist_path := Option.none,
    checklist_digest := Option.none, completed_at := Option.none,
    status := .in_progress, «variables» := [],
    responses := [{ item_id := "item-1", result := .pass, answered_at := 1,
                    notes := Option.none, evidence := [],
                    matrix_context := Option.none }],
    resolved_checklist := Option.none, resolved_items := Option.none }

theorem resume_contract_witness :
    ∃ st, ExecutionEngine.resume minimalChecklist demoSession = .ok st :=
  ((resume_contract minimalChecklist demoSession
      [⟨"Basics", itemBasic, Option.none⟩] (Or.inl rfl) rfl).1).mpr
    ⟨by decide, by
      intro i h1 h2
      have : i = 0 := Nat.lt_one_iff.mp h1
      subst this
      exact ⟨rfl, rfl⟩⟩

end ClaimC1

section ClaimC6

theorem sessionVarMap_map_pyStr (vars : VarMap)
    (h : ∀ p ∈ vars, ∃ v, p.2 = PyVal.str v) :
    sessionVarMap (vars.map fun p => (p.1, pyStr p.2)) = vars := by
  induction vars with
  | nil => rfl
  | cons p rest ih =>
    obtain ⟨k, pv⟩ := p
    obtain ⟨v, hv⟩ := h (k, pv) (List.mem_cons_self _ rest)
    simp only at hv
    subst hv
    have hrest := ih fun q hq => h q (List.mem_cons_of_mem _ hq)
    show (k, PyVal.str (pyStr (PyVal.str v))) ::
        sessionVarMap (rest.map fun p => (p.1, pyStr p.2)) =
      (k, PyVal.str v) :: rest
    rw [hrest]
    rfl

theorem sha256Hex_ne_empty (msg : List Nat) : sha256Hex msg ≠ "" := by
  have hmk : ∀ c1 c2 c3 c4 c5 c6 c7 c8 : Char,
      (String.mk [c1, c2, c3, c4, c5, c6, c7, c8]).length = 8 :=
    fun _ _ _ _ _ _ _ _ => rfl
  intro h
  have hlen := congrArg String.length h
  rw [sha256Hex] at hlen
  simp only [String.length_append, hex8, hmk] at hlen
  exact absurd hlen (by decide)

theorem honestRecords_invariant (st0 st : EngineState) (h : HonestRecords st0 st)
    (hresp0 : st0.session.responses = []) (hidx0 : st0.current_index = 0) :
    st.checklist = st0.checklist ∧ st.items = st0.items ∧
    st.session.«variables» = st0.session.«variables» ∧
    st.session.checklist_digest = st0.session.checklist_digest ∧
    st.current_index = st.session.responses.length ∧
    st.session.responses.length ≤ st.items.length ∧
    (∀ i (h1 : i < st.session.responses.length) (h2 : i < st.items.length),
      st.session.responses[i].item_id = st.items[i].item.id ∧
      st.session.responses[i].matrix_context = st.items[i].matrix_context) := by
  induction h with
  | refl =>
    rw [hresp0, hidx0]
    exact ⟨rfl, rfl, rfl, rfl, rfl, Nat.zero_le _,
      fun i h1 h2 => absurd h1 (by simp)⟩
  | step st' result notes evidence now hguard hrec ih =>
    obtain ⟨ihc, ihi, ihv, ihd, ihlen, ihle, ihall⟩ := ih
    simp only [ExecutionEngine.record_response, EngineState.with_response,
      List.length_append, List.length_cons, List.length_nil]
    refine ⟨ihc, ihi, ihv, ihd, by omega, by omega, ?_⟩
    intro i h1 h2
    by_cases hi : i < st'.session.responses.length
    · rw [List.getElem_append_left hi]
      exact ihall i hi h2
    · have hieq : i = st'.session.responses.length := by omega
      subst hieq
      rw [List.getElem_concat_length]
      have hget : st'.items.get ⟨st'.current_index, hguard⟩ =
          st'.items.get ⟨st'.session.responses.length, h2⟩ :=
        congrArg st'.items.get (Fin.ext ihlen)
      rw [List.get_eq_getElem] at hget
      exact ⟨congrArg (fun r => r.item.id) hget,
        congrArg (fun r => r.matrix_context) hget⟩
      rfl

/-- C6 amended — Start-resume round trip: for every checklist `C`, variable
map `V` whose values are strings (so that the session's stringified variables
reproduce `V` on resume), and session created by `start(C, V, path)` followed
by any sequence of `record_response` calls that record the current expanded
item with its own matrix context (the driver loop's behaviour), resuming that
session against the unchanged checklist succeeds and yields an `EngineState`
with `current_index = len(session.responses)`; resuming it against any
checklist with a different digest fails with the consistency error. -/
theorem start_resume_round_trip (c : Checklist) (vars : VarMap)
    (path sid : String) (now : Datetime) (st0 st : EngineState)
    (hstr : ∀ p ∈ vars, ∃ v, p.2 = PyVal.str v)
    (h0 : ExecutionEngine.start c vars path sid now = .ok st0)
    (hr : HonestRecords st0 st) :
    (∃ st', ExecutionEngine.resume c st.session = .ok st' ∧
       st'.current_index = st.session.responses.length) ∧
    (∀ c' : Checklist,
       compute_checklist_digest c' ≠ compute_checklist_digest c →
       ExecutionEngine.resume c' st.session =
         .error "Checklist contents do not match the saved session.") := by
  obtain ⟨hexp, hvars0, hdig0, hresp0, hidx0, hchk0⟩ := start_ok_inv _ _ _ _ _ _ h0
  obtain ⟨hc, hi, hv, hd, hlen, hle, hall⟩ :=
    honestRecords_invariant st0 st hr hresp0 hidx0
  have hdigest : st.session.checklist_digest =
      some (compute_checklist_digest c) := by rw [hd, hdig0]
  constructor
  · have hval : validate_session_digest st.session c =
        .ok (compute_checklist_digest c) :=
      validate_ok_of_digest c st.session (Or.inr hdigest)
    have he : _expand_items c (sessionVarMap st.session.«variables») =
        .ok st.items := by
      rw [hv, hvars0, sessionVarMap_map_pyStr vars hstr, hi]
      exact hexp
    have hmatch : matchResponses st.session.responses st.items = .ok () :=
      (matchResponses_ok_iff _ _).mpr
        ⟨hle, fun i h1 h2 =>
          ⟨(hall i h1 h2).1, congrArg matrix_key (hall i h1 h2).2⟩⟩
    obtain ⟨st', hst', hidx', -⟩ :=
      resume_ok_construct c st.session st.items _ hval he hle hmatch
    exact ⟨st', hst', hidx'⟩
  · intro c' hne
    have hval : validate_session_digest st.session c' =
        .error "Checklist contents do not match the saved session." := by
      unfold validate_session_digest
      rw [hdigest]
      show (if compute_checklist_digest c ≠ "" ∧
              compute_checklist_digest c ≠ compute_checklist_digest c' then
          (Except.error "Checklist contents do not match the saved session." :
            Except String String)
        else Except.ok (compute_checklist_digest c')) =
        Except.error "Checklist contents do not match the saved session."
      rw [if_pos ⟨sha256Hex_ne_empty _, fun h => hne h.symm⟩]
    unfold ExecutionEngine.resume
    rw [hval, exceptBind_error_apply]

/-- C6 counterexample — the claim as stated quantifies over *any* sequence of
`record_response` calls; recording a response for an item that is not the
current expanded item produces a session that `resume` rejects even against
the unchanged checklist, because `record_response` never validates its
arguments. -/
theorem start_resume_round_trip_cex :
    ∃ st0,
      ExecutionEngine.start minimalChecklist [] "checklist.yaml" "sid" 0 = .ok st0 ∧
      ExecutionEngine.resume minimalChecklist
        (ExecutionEngine.record_response itemOther .pass Option.none [] Option.none 1
          st0).session =
        .error "Session responses do not match the checklist items." := by
  exact ⟨_, rfl, by set_option maxRecDepth 100000 in rfl⟩

theorem start_resume_round_trip_witness :
    ∃ st0 st',
      ExecutionEngine.start minimalChecklist [] "checklist.yaml" "sid" 0 = .ok st0 ∧
      ExecutionEngine.resume minimalChecklist st0.session = .ok st' ∧
      st'.current_index = st0.session.responses.length := by
  obtain ⟨st', h1, h2⟩ := (start_resume_round_trip minimalChecklist []
    "checklist.yaml" "sid" 0 _ _ (fun p hp => absurd hp (List.not_mem_nil p))
    rfl (HonestRecords.refl _)).1
  exact ⟨_, st', rfl, h1, h2⟩

end ClaimC6

section SortingLemmas

theorem charNat_inj {a b : Char} (h : charNat a = charNat b) : a = b := by
  apply Char.eq_of_val_eq
  apply UInt32.eq_of_toBitVec_eq
  apply BitVec.eq_of_toNat_eq
  simpa [charNat, Char.toNat, UInt32.toNat] using h

theorem strData_inj {a b : String} (h : a.data = b.data) : a = b := by
  cases a
  cases b
  exact congrArg String.mk (by simpa using h)

theorem listLeChar_total : ∀ xs ys : List Char,
    listLeChar xs ys = true ∨ listLeChar ys xs = true
  | [], _ => Or.inl rfl
  | _ :: _, [] => Or.inr rfl
  | a :: as, b :: bs => by
    unfold listLeChar
    by_cases h1 : charNat a < charNat b
    · left
      rw [if_pos h1]
    · by_cases h2 : charNat b < charNat a
      · right
        rw [if_pos h2]
      · rw [if_neg h1, if_neg h2, if_neg h2, if_neg h1]
        exact listLeChar_total as bs

theorem listLeChar_antisymm : ∀ xs ys : List Char,
    listLeChar xs ys = true → listLeChar ys xs = true → xs = ys
  | [], [], _, _ => rfl
  | [], _ :: _, _, h2 => by cases h2
  | _ :: _, [], h1, _ => by cases h1
  | a :: as, b :: bs, h1, h2 => by
    unfold listLeChar at h1 h2
    by_cases hab : charNat a < charNat b
    · rw [if_neg (by omega), if_pos hab] at h2
      cases h2
    · by_cases hba : charNat b < charNat a
      · rw [if_pos hba] at h2
        rw [if_neg hab, if_pos hba] at h1
        cases h1
      · rw [if_neg hab, if_neg hba] at h1
        rw [if_neg hba, if_neg hab] at h2
        have hx : a = b := charNat_inj (by omega)
        rw [hx, listLeChar_antisymm as bs h1 h2]

theorem listLeChar_trans : ∀ xs ys zs : List Char,
    listLeChar xs ys = true → listLeChar ys zs = true → listLeChar xs zs = true
  | [], _, _, _, _ => rfl
  | _ :: _, [], _, h1, _ => by cases h1
  | _ :: _, _ :: _, [], _, h2 => by cases h2
  | a :: as, b :: bs, c :: cs, h1, h2 => by
    unfold listLeChar at h1 h2 ⊢
    by_cases hab : charNat a < charNat b
    · rw [if_pos (by
        by_cases hbc : charNat b < charNat c
        · omega
        · rw [if_neg hbc] at h2
          by_cases hcb : charNat c < charNat b
          · rw [if_pos hcb] at h2
            cases h2
          · omega)]
    · by_cases hba : charNat b < charNat a
      · rw [if_neg hab, if_pos hba] at h1
        cases h1
      · rw [if_neg hab, if_neg hba] at h1
        by_cases hbc : charNat b < charNat c
        · rw [if_pos (by omega)]
        · rw [if_neg hbc] at h2
          by_cases hcb : charNat c < charNat b
          · rw [if_pos hcb] at h2
            cases h2
          · rw [if_neg hcb] at h2
            rw [if_neg (by omega), if_neg (by omega)]
            exact listLeChar_trans as bs cs h1 h2

theorem strLe_total (a b : String) : strLe a b = true ∨ strLe b a = true :=
  listLeChar_total a.data b.data

theorem strLe_antisymm (a b : String) (h1 : strLe a b = true)
    (h2 : strLe b a = true) : a = b :=
  strData_inj (listLeChar_antisymm a.data b.data h1 h2)

theorem strLe_trans (a b c : String) (h1 : strLe a b = true)
    (h2 : strLe b c = true) : strLe a c = true :=
  listLeChar_trans a.data b.data c.data h1 h2

theorem insertLe_perm {α : Type} (le : α → α → Bool) (a : α) (l : List α) :
    (insertLe le a l).Perm (a :: l) := by
  induction l with
  | nil => exact List.Perm.refl _
  | cons b bs ih =>
    unfold insertLe
    by_cases h : le a b = true
    · rw [if_pos h]
    · rw [if_neg h]
      exact List.Perm.trans (List.Perm.cons b ih) (List.Perm.swap a b bs)

theorem insertLe_mem {α : Type} (le : α → α → Bool) (a x : α) (l : List α)
    (hx : x ∈ insertLe le a l) : x = a ∨ x ∈ l := by
  have := (insertLe_perm le a l).subset hx
  exact List.mem_cons.mp this

theorem insertLe_pairwise {α : Type} (le : α → α → Bool)
    (htrans : ∀ x y z, le x y = true → le y z = true → le x z = true)
    (htot : ∀ x y, le x y = true ∨ le y x = true) (a : α) (l : List α)
    (hl : l.Pairwise (fun x y => le x y = true)) :
    (insertLe le a l).Pairwise (fun x y => le x y = true) := by
  induction l with
  | nil => simp [insertLe]
  | cons b bs ih =>
    obtain ⟨hbAll, hbs⟩ := List.pairwise_cons.mp hl
    unfold insertLe
    by_cases h : le a b = true
    · rw [if_pos h]
      refine List.Pairwise.cons ?_ hl
      intro x hx
      rcases List.mem_cons.mp hx with rfl | hxbs
      · exact h
      · exact htrans a b x h (hbAll x hxbs)
    · rw [if_neg h]
      have hba : le b a = true := (htot a b).resolve_left h
      refine List.Pairwise.cons ?_ (ih hbs)
      intro x hx
      rcases insertLe_mem le a x bs hx with rfl | hxbs
      · exact hba
      · exact hbAll x hxbs

theorem sortLe_perm {α : Type} (le : α → α → Bool) (l : List α) :
    (sortLe le l).Perm l := by
  induction l with
  | nil => exact List.Perm.refl _
  | cons a as ih =>
    unfold sortLe
    exact (insertLe_perm le a _).trans (List.Perm.cons a ih)

theorem sortLe_pairwise {α : Type} (le : α → α → Bool)
    (htrans : ∀ x y z, le x y = true → le y z = true → le x z = true)
    (htot : ∀ x y, le x y = true ∨ le y x = true) (l : List α) :
    (sortLe le l).Pairwise (fun x y => le x y = true) := by
  induction l with
  | nil => simp [sortLe]
  | cons a as ih =>
    unfold sortLe
    exact insertLe_pairwise le htrans htot a _ ih

theorem sorted_nodupkeys_perm_eq {β : Type} (le : String → String → Bool)
    (hanti : ∀ x y, le x y = true → le y x = true → x = y) :
    ∀ (l1 l2 : List (String × β)), l1.Perm l2 →
      l1.Pairwise (fun a b => le a.1 b.1 = true) →
      l2.Pairwise (fun a b => le a.1 b.1 = true) →
      (l1.map Prod.fst).Nodup → l1 = l2
  | [], l2, hp, _, _, _ => hp.nil_eq
  | a :: t1, [], hp, _, _, _ => by simpa using hp.length_eq
  | a :: t1, b :: t2, hp, hs1, hs2, hnd => by
    have hab : a = b := by
      by_contra hne
      have hain : a ∈ b :: t2 := hp.subset (List.mem_cons_self a t1)
      have hbin : b ∈ a :: t1 := hp.symm.subset (List.mem_cons_self b t2)
      have ha2 : a ∈ t2 := by
        rcases List.mem_cons.mp hain with h | h
        · exact absurd h hne
        · exact h
      have hb1 : b ∈ t1 := by
        rcases List.mem_cons.mp hbin with h | h
        · exact absurd h.symm hne
        · exact h
      have h1 : le a.1 b.1 = true := (List.pairwise_cons.mp hs1).1 b hb1
      have h2 : le b.1 a.1 = true := (List.pairwise_cons.mp hs2).1 a ha2
      have hkey : a.1 = b.1 := hanti _ _ h1 h2
      have hmem : a.1 ∈ t1.map Prod.fst := by
        rw [hkey]
        exact List.mem_map_of_mem Prod.fst hb1
      exact (List.nodup_cons.mp hnd).1 hmem
    subst hab
    have hp' : t1.Perm t2 := hp.cons_inv
    rw [sorted_nodupkeys_perm_eq le hanti t1 t2 hp'
      (List.pairwise_cons.mp hs1).2 (List.pairwise_cons.mp hs2).2
      (List.nodup_cons.mp hnd).2]

theorem sortLe_key_eq_of_perm (l1 l2 : List (String × Json)) (hp : l1.Perm l2)
    (hnd : (l1.map Prod.fst).Nodup) :
    sortLe (fun a b => strLe a.1 b.1) l1 = sortLe (fun a b => strLe a.1 b.1) l2 := by
  apply sorted_nodupkeys_perm_eq strLe strLe_antisymm
  · exact (sortLe_perm _ l1).trans (hp.trans (sortLe_perm _ l2).symm)
  · exact sortLe_pairwise _ (fun x y z => strLe_trans x.1 y.1 z.1)
      (fun x y => strLe_total x.1 y.1) l1
  · exact sortLe_pairwise _ (fun x y z => strLe_trans x.1 y.1 z.1)
      (fun x y => strLe_total x.1 y.1) l2
  · exact (List.Perm.nodup_iff ((sortLe_perm _ l1).map Prod.fst)).mpr hnd

theorem sortedObj_eq_of_perm (kvs1 kvs2 : List (String × Json))
    (hp : kvs1.Perm kvs2) (hnd : (kvs1.map Prod.fst).Nodup) :
    sortedObj kvs1 = sortedObj kvs2 :=
  congrArg Json.obj (sortLe_key_eq_of_perm kvs1 kvs2 hp hnd)

end SortingLemmas

section ClaimC7

/-- Semantic equality of matrix entries: the same key/value pairs as an
unordered dict with distinct keys. -/
def MatrixCtxSemEq (m m' : MatrixCtx) : Prop :=
  m.Perm m' ∧ (m.map Prod.fst).Nodup

/-- Relation lift over the optional matrix lists. -/
def OptListRel {α : Type} (R : α → α → Prop) :
    Option (List α) → Option (List α) → Prop
  | Option.none, Option.none => True
  | some xs, some ys => List.Forall₂ R xs ys
  | _, _ => False

/-- Semantic equality of items: scalar fields and condition source strings
equal, matrix entry lists pointwise semantically equal. -/
def ItemSemEq (i i' : ChecklistItem) : Prop :=
  i.id = i'.id ∧ i.check = i'.check ∧ i.severity = i'.severity ∧
  i.guidance = i'.guidance ∧ i.evidence_required = i'.evidence_required ∧
  i.condition.map Cond.src = i'.condition.map Cond.src ∧
  OptListRel MatrixCtxSemEq i.matrix i'.matrix

/-- Semantic equality of sections. -/
def SectionSemEq (s s' : ChecklistSection) : Prop :=
  s.name = s'.name ∧ s.condition.map Cond.src = s'.condition.map Cond.src ∧
  List.Forall₂ ItemSemEq s.items s'.items

/-- Identical semantic content of two checklist values: scalar fields and
nested metadata equal, the variables dict equal as an unordered key/value
set (distinct keys), sections and items pointwise semantically equal
(matrix entries equal as unordered dicts). -/
def ChecklistSemEq (c c' : Checklist) : Prop :=
  c.name = c'.name ∧ c.version = c'.version ∧ c.domain = c'.domain ∧
  c.metadata = c'.metadata ∧
  c.«variables».Perm c'.«variables» ∧
  (c.«variables».map Prod.fst).Nodup ∧
  List.Forall₂ SectionSemEq c.sections c'.sections

theorem forall₂_map_eq {α β : Type} {R : α → α → Prop} (f : α → β)
    (hf : ∀ a b, R a b → f a = f b) :
    ∀ {l l' : List α}, List.Forall₂ R l l' → l.map f = l'.map f := by
  intro l l' h
  induction h with
  | nil => rfl
  | cons hab _ ih => simp only [List.map_cons, hf _ _ hab, ih]

theorem condJson_src_eq {o o' : Option Cond}
    (h : o.map Cond.src = o'.map Cond.src) : condJson o = condJson o' := by
  cases o with
  | none =>
    cases o' with
    | none => rfl
    | some c2 => simp at h
  | some c1 =>
    cases o' with
    | none => simp at h
    | some c2 =>
      simp only [Option.map_some', Option.some.injEq] at h
      simp [condJson, h]

theorem matrixCtxJson_semEq {m m' : MatrixCtx} (h : MatrixCtxSemEq m m') :
    matrixCtxJson m = matrixCtxJson m' := by
  obtain ⟨hp, hnd⟩ := h
  unfold matrixCtxJson
  apply sortedObj_eq_of_perm
  · exact hp.map _
  · simpa [List.map_map, Function.comp] using hnd

theorem itemJson_semEq {i i' : ChecklistItem} (h : ItemSemEq i i') :
    itemJson i = itemJson i' := by
  obtain ⟨h1, h2, h3, h4, h5, h6, h7⟩ := h
  unfold itemJson
  rw [h1, h2, h3, h4, h5, condJson_src_eq h6]
  cases hm : i.matrix with
  | none =>
    cases hm2 : i'.matrix with
    | none => rfl
    | some ms2 =>
      rw [hm, hm2] at h7
      exact absurd h7 (by simp [OptListRel])
  | some ms =>
    cases hm2 : i'.matrix with
    | none =>
      rw [hm, hm2] at h7
      exact absurd h7 (by simp [OptListRel])
    | some ms2 =>
      rw [hm, hm2] at h7
      have : List.Forall₂ MatrixCtxSemEq ms ms2 := h7
      simp only [forall₂_map_eq matrixCtxJson (fun a b hab => matrixCtxJson_semEq hab) this]

theorem sectionJson_semEq {s s' : ChecklistSection} (h : SectionSemEq s s') :
    sectionJson s = sectionJson s' := by
  obtain ⟨h1, h2, h3⟩ := h
  unfold sectionJson
  rw [h1, condJson_src_eq h2,
      forall₂_map_eq itemJson (fun a b hab => itemJson_semEq hab) h3]

theorem checklistJson_semEq {c c' : Checklist} (h : ChecklistSemEq c c') :
    checklistJson c = checklistJson c' := by
  obtain ⟨h1, h2, h3, h4, h5, h6, h7⟩ := h
  unfold checklistJson
  rw [h1, h2, h3, h4,
      forall₂_map_eq sectionJson (fun a b hab => sectionJson_semEq hab) h7,
      sortedObj_eq_of_perm _ _ (h5.map _)
        (by simpa [List.map_map, Function.comp] using h6)]

/-- C7 — Digest stability: two checklist values with identical semantic
content (equal scalar fields, nested metadata, sections, items; variables
map and matrix entries equal as unordered dicts with distinct keys) produce
the same digest — the canonical serialization sorts every dict's keys — and
repeated calls of the digest function on one unchanged checklist value
return the same digest (it is a pure function; the source's
`_digest_cache` only memoizes it). -/
theorem digest_stable (c c' : Checklist) (h : ChecklistSemEq c c') :
    compute_checklist_digest c = compute_checklist_digest c' ∧
    compute_checklist_digest c = compute_checklist_digest c := by
  refine ⟨?_, rfl⟩
  unfold compute_checklist_digest
  rw [checklistJson_semEq h]

/-- The item of the digest-permutation fixture, one matrix key order. -/
def itemPermA : ChecklistItem :=
  { id := "m-1", check := "Check", severity := .low, guidance := Option.none,
    evidence_required := false, condition := Option.none,
    matrix := some [[("os", "linux"), ("browser", "chrome")]] }

/-- The same item with the matrix entry's keys in the opposite order. -/
def itemPermB : ChecklistItem :=
  { id := "m-1", check := "Check", severity := .low, guidance := Option.none,
    evidence_required := false, condition := Option.none,
    matrix := some [[("browser", "chrome"), ("os", "linux")]] }

/-- A checklist with a two-entry variables dict and a two-key matrix
context, in one insertion order. -/
def checklistPermA : Checklist :=
  { name := "Perm", version := "1.0.0", domain := "web",
    metadata := ⟨some "QA", ["smoke"], Option.none⟩,
    «variables» :=
      [("environment", ⟨"Environment", true, some ["dev", "prod"], Option.none⟩),
       ("feature_flag", ⟨"Feature flag", false, Option.none, some "on"⟩)],
    sections := [{ name := "S", condition := Option.none, items := [itemPermA] }] }

/-- The same semantic content as `checklistPermA` with the variables dict and
the matrix entry's keys in the opposite insertion order. -/
def checklistPermB : Checklist :=
  { name := "Perm", version := "1.0.0", domain := "web",
    metadata := ⟨some "QA", ["smoke"], Option.none⟩,
    «variables» :=
      [("feature_flag", ⟨"Feature flag", false, Option.none, some "on"⟩),
       ("environment", ⟨"Environment", true, some ["dev", "prod"], Option.none⟩)],
    sections := [{ name := "S", condition := Option.none, items := [itemPermB] }] }

theorem digest_stable_witness :
    compute_checklist_digest checklistPermA = compute_checklist_digest checklistPermB :=
  (digest_stable checklistPermA checklistPermB
    ⟨rfl, rfl, rfl, rfl, by decide, by decide,
      List.Forall₂.cons
        ⟨rfl, rfl,
          List.Forall₂.cons
            ⟨rfl, rfl, rfl, rfl, rfl, rfl,
              List.Forall₂.cons ⟨by decide, by decide⟩ List.Forall₂.nil⟩
            List.Forall₂.nil⟩
        List.Forall₂.nil⟩).1

end ClaimC7
